import Mathlib

/-!
Verification development for the local-task-manager repository.

The development shallowly embeds the task store, the HTTP route handlers of
`src/routes/api.js`, the file-backed store operations of
`src/utils/fileManager.js`, the client-side streak counter of
`public/js/gamification.js`, and the appointment-reminder module of
`public/js/appointmentReminder.js`.

Representation choices:
* A task's `YYYY-MM-DD` due-date string is represented by its parsed calendar
  date (`Date` below); formatting and parsing are inverse bijections on valid
  dates, and the code performs no other string operations on due dates.
* A `HH:MM` due-time string is represented by minutes since midnight.
* ISO timestamps (`new Date().toISOString()`, compared via `getTime()` /
  `Date.now()`) are represented by their millisecond values as `Int`.
* The `toDateString` calendar-day keys used by the client-side modules are
  represented by calendar-day indices as `Nat` (the code only ever compares
  them for equality or takes a floor day difference).
* The persisted JSON store is the list of tasks in file order.
-/

namespace TaskApp

/-- Gregorian leap-year test, as produced by the JavaScript `Date` calendar. -/
def isLeap (y : Nat) : Bool :=
  y % 4 == 0 && (y % 100 != 0 || y % 400 == 0)

/-- One extra day in a leap year, zero otherwise. -/
def leapDay (y : Nat) : Nat := if isLeap y then 1 else 0

/-- Length of month `m` (1-12) of year `y` in the Gregorian calendar used by
the JavaScript `Date` arithmetic the recurrence code relies on. -/
def daysInMonth (y : Nat) : Nat → Nat
  | 2 => 28 + leapDay y
  | 4 => 30
  | 6 => 30
  | 9 => 30
  | 11 => 30
  | _ => 31

/-- A calendar date, the parsed form of a `YYYY-MM-DD` due-date string. -/
structure Date where
  year : Nat
  month : Nat
  day : Nat
deriving DecidableEq, Repr

/-- The date is an actual Gregorian calendar date (with a positive year, as
written by the four-digit `YYYY` format). -/
def validDate (d : Date) : Prop :=
  1 ≤ d.year ∧ 1 ≤ d.month ∧ d.month ≤ 12 ∧ 1 ≤ d.day ∧
    d.day ≤ daysInMonth d.year d.month

instance (d : Date) : Decidable (validDate d) := by
  unfold validDate; infer_instance

/-- Advance a valid date by one calendar day, the effect of the JavaScript
`date.setDate(date.getDate() + 1)` on a date at local midnight. -/
def nextDay (d : Date) : Date :=
  if d.day < daysInMonth d.year d.month then ⟨d.year, d.month, d.day + 1⟩
  else if d.month < 12 then ⟨d.year, d.month + 1, 1⟩
  else ⟨d.year + 1, 1, 1⟩

/-- Advance a date by `n` calendar days. -/
def addDays (d : Date) : Nat → Date
  | 0 => d
  | n + 1 => nextDay (addDays d n)

/-- Number of leap years with year number in `[1, y)`. -/
def leapCount (y : Nat) : Nat :=
  (y - 1) / 4 - (y - 1) / 100 + (y - 1) / 400

/-- Number of days from 0001-01-01 up to (excluding) the first day of year `y`. -/
def daysBeforeYear (y : Nat) : Nat :=
  365 * (y - 1) + leapCount y

/-- Number of days in the months before month `m` in a year contributing
`l ∈ {0, 1}` leap days. -/
def monthOffset (l : Nat) : Nat → Nat
  | 1 => 0
  | 2 => 31
  | 3 => 59 + l
  | 4 => 90 + l
  | 5 => 120 + l
  | 6 => 151 + l
  | 7 => 181 + l
  | 8 => 212 + l
  | 9 => 243 + l
  | 10 => 273 + l
  | 11 => 304 + l
  | 12 => 334 + l
  | _ => 365 + l

/-- Linear day index of a date: 0001-01-01 has index 0, and each next calendar
day has the next index. -/
def toDayNumber (d : Date) : Nat :=
  daysBeforeYear d.year + monthOffset (leapDay d.year) d.month + (d.day - 1)

/-- Day of the week as JavaScript `getDay()` reports it: 0 is Sunday and 6 is
Saturday. 0001-01-01 of the proleptic Gregorian calendar is a Monday. -/
def dayOfWeek (d : Date) : Nat :=
  (toDayNumber d + 1) % 7

theorem daysInMonth_pos (y m : Nat) : 1 ≤ daysInMonth y m := by
  unfold daysInMonth
  split <;> omega

set_option maxHeartbeats 1000000 in
theorem daysBeforeYear_succ (y : Nat) (hy : 1 ≤ y) :
    daysBeforeYear (y + 1) = daysBeforeYear y + 365 + leapDay y := by
  unfold daysBeforeYear leapCount leapDay isLeap
  split
  · next h =>
    simp only [Bool.and_eq_true, beq_iff_eq, Bool.or_eq_true, bne_iff_ne,
      ne_eq] at h
    omega
  · next h =>
    simp only [Bool.and_eq_true, beq_iff_eq, Bool.or_eq_true, bne_iff_ne,
      ne_eq, not_and, not_or, not_not] at h
    omega

theorem validDate_nextDay (d : Date) (h : validDate d) :
    validDate (nextDay d) := by
  obtain ⟨y, m, dy⟩ := d
  obtain ⟨h1, h2, h3, h4, h5⟩ := h
  dsimp only at *
  by_cases hlt : dy < daysInMonth y m
  · have hstep : nextDay ⟨y, m, dy⟩ = ⟨y, m, dy + 1⟩ := by
      simp [nextDay, hlt]
    rw [hstep]
    exact ⟨h1, h2, h3, show 1 ≤ dy + 1 by omega,
      show dy + 1 ≤ daysInMonth y m by omega⟩
  · by_cases hm : m < 12
    · have hstep : nextDay ⟨y, m, dy⟩ = ⟨y, m + 1, 1⟩ := by
        simp [nextDay, hlt, hm]
      rw [hstep]
      exact ⟨h1, show 1 ≤ m + 1 by omega, show m + 1 ≤ 12 by omega,
        show 1 ≤ 1 by omega, show 1 ≤ daysInMonth y (m + 1) from
          daysInMonth_pos ..⟩
    · have hstep : nextDay ⟨y, m, dy⟩ = ⟨y + 1, 1, 1⟩ := by
        simp [nextDay, hlt, hm]
      rw [hstep]
      exact ⟨show 1 ≤ y + 1 by omega, show 1 ≤ 1 by omega,
        show 1 ≤ 12 by omega, show 1 ≤ 1 by omega,
        show 1 ≤ daysInMonth (y + 1) 1 from daysInMonth_pos ..⟩

theorem toDayNumber_nextDay (d : Date) (h : validDate d) :
    toDayNumber (nextDay d) = toDayNumber d + 1 := by
  obtain ⟨y, m, dy⟩ := d
  obtain ⟨h1, h2, h3, h4, h5⟩ := h
  dsimp only at *
  by_cases hlt : dy < daysInMonth y m
  · have hstep : nextDay ⟨y, m, dy⟩ = ⟨y, m, dy + 1⟩ := by
      simp [nextDay, hlt]
    rw [hstep]
    simp only [toDayNumber]
    omega
  · by_cases hm : m < 12
    · have hstep : nextDay ⟨y, m, dy⟩ = ⟨y, m + 1, 1⟩ := by
        simp [nextDay, hlt, hm]
      rw [hstep]
      simp only [toDayNumber]
      have hoff : monthOffset (leapDay y) (m + 1) =
          monthOffset (leapDay y) m + daysInMonth y m := by
        cases hL : isLeap y
        all_goals interval_cases m
        all_goals simp [monthOffset, daysInMonth, leapDay, hL]
      omega
    · have hm12 : m = 12 := by omega
      subst hm12
      have hstep : nextDay ⟨y, 12, dy⟩ = ⟨y + 1, 1, 1⟩ := by
        simp [nextDay, hlt]
      rw [hstep]
      have hdim : daysInMonth y 12 = 31 := by simp [daysInMonth]
      simp only [toDayNumber, monthOffset]
      rw [daysBeforeYear_succ y h1]
      omega

theorem addDays_spec (d : Date) (h : validDate d) (n : Nat) :
    validDate (addDays d n) ∧ toDayNumber (addDays d n) = toDayNumber d + n := by
  induction n with
  | zero => exact ⟨h, rfl⟩
  | succ n ih =>
    refine ⟨validDate_nextDay _ ih.1, ?_⟩
    rw [addDays, toDayNumber_nextDay _ ih.1, ih.2]
    omega

theorem dayOfWeek_nextDay (d : Date) (h : validDate d) :
    dayOfWeek (nextDay d) = (dayOfWeek d + 1) % 7 := by
  unfold dayOfWeek
  rw [toDayNumber_nextDay d h]
  omega

theorem dayOfWeek_lt (d : Date) : dayOfWeek d < 7 := by
  unfold dayOfWeek; omega

/-- A task record as stored in the `tasks` array of `tasks.json`, with the
fields written by the newer `src/routes/api.js` (the older revision writes the
same fields minus `details`, `isAppointment`, `reminderMinutes` and
`workingDaysOnly`). -/
structure Task where
  id : String
  description : String
  dueDate : Option Date
  dueTime : Option Nat
  priority : String
  recurring : Option String
  details : Option String
  isAppointment : Bool
  reminderMinutes : Option Nat
  workingDaysOnly : Bool
  completed : Bool
  archived : Bool
  inProgress : Bool
  startedAt : Option Int
  timeSpent : Int
  completedAt : Option Int
  links : List String
  createdAt : Int
  updatedAt : Int
deriving DecidableEq, Repr

/-- JavaScript truthiness of an optional string field (absent, `null` and the
empty string are all falsy). -/
def truthyStr : Option String → Bool
  | none => false
  | some s => !(s == "")

/-- The JavaScript idiom `x || 30` applied to an optional minute count (both a
missing value and 0 fall back to 30). -/
def jsOr30 : Option Nat → Nat
  | none => 30
  | some m => if m == 0 then 30 else m

/-- calculateNextDueDate of `src/routes/api.js`: the next due date of a
recurring task. Daily recurrence advances one day and, with the working-days
flag, skips a Saturday (+2) or Sunday (+1) result to Monday; weekly recurrence
advances seven days; an absent due date or recurrence is returned unchanged. -/
def calculateNextDueDate (currentDate : Option Date) (recurring : Option String)
    (workingDaysOnly : Bool) : Option Date :=
  match currentDate with
  | none => none
  | some d =>
    if !(truthyStr recurring) then some d
    else
      match recurring with
      | none => some d
      | some r =>
        if r == "daily" then
          let d1 := nextDay d
          if workingDaysOnly then
            if dayOfWeek d1 == 0 then some (nextDay d1)
            else if dayOfWeek d1 == 6 then some (nextDay (nextDay d1))
            else some d1
          else some d1
        else if r == "weekly" then some (addDays d 7)
        else some d

/-- saveTask of `src/utils/fileManager.js`: replace the first stored task with
the same id, or append the task when no stored task has its id. -/
def saveTask (tasks : List Task) (t : Task) : List Task :=
  match tasks with
  | [] => [t]
  | x :: xs => if x.id == t.id then t :: xs else x :: saveTask xs t

/-- getTask of `src/utils/fileManager.js`: first stored task with the id. -/
def getTask (tasks : List Task) (taskId : String) : Option Task :=
  tasks.find? (fun t => t.id == taskId)

/-- deleteTask of `src/utils/fileManager.js`: drop every task with the id. -/
def deleteTask (tasks : List Task) (taskId : String) : List Task :=
  tasks.filter (fun t => !(t.id == taskId))

/-- Elapsed whole seconds, `Math.floor((now - startedAt) / 1000)`. -/
def elapsedSec (now startedAt : Int) : Int :=
  Int.fdiv (now - startedAt) 1000

/-- The mutation the stop handler applies to the target task: accrue elapsed
seconds when the task is in progress with a start timestamp, then clear the
timer fields. -/
def applyStop (t : Task) (now : Int) : Task :=
  let t1 :=
    match t.startedAt with
    | some s =>
      if t.inProgress then { t with timeSpent := t.timeSpent + elapsedSec now s }
      else t
    | none => t
  { t1 with inProgress := false, startedAt := none, updatedAt := now }

/-- The mutation the complete handler applies to the target task: the same
elapsed accrual as stop, plus completion and archival flags. -/
def applyComplete (t : Task) (now : Int) : Task :=
  let t1 :=
    match t.startedAt with
    | some s =>
      if t.inProgress then { t with timeSpent := t.timeSpent + elapsedSec now s }
      else t
    | none => t
  { t1 with
    completed := true
    archived := true
    inProgress := false
    startedAt := none
    completedAt := some now
    updatedAt := now }

/-- The in-memory pass of the start handler over the freshly read task list:
it clears the timer fields of every other in-progress task. This array is
never written back; only the started task is persisted through saveTask. -/
def stopOthers (tasks : List Task) (id : String) : List Task :=
  tasks.map (fun t =>
    if t.inProgress && !(t.id == id) then
      { t with inProgress := false, startedAt := none }
    else t)

/-- POST /api/tasks/:id/start. The handler reads the store, clears other
running timers only in memory, starts the target task, then persists it with
saveTask — which re-reads the store from disk, so the in-memory changes to the
other tasks are discarded. The pair is the HTTP result (`none` is the 404
response) and the persisted store. -/
def startEndpoint (tasks : List Task) (id : String) (now : Int) :
    Option Task × List Task :=
  let tasksMem := stopOthers tasks id
  match tasksMem.find? (fun t => t.id == id) with
  | none => (none, tasks)
  | some t =>
    let t2 := { t with
      inProgress := true
      startedAt := some now
      updatedAt := now }
    (some t2, saveTask tasks t2)

/-- POST /api/tasks/:id/stop. -/
def stopEndpoint (tasks : List Task) (id : String) (now : Int) :
    Option Task × List Task :=
  match getTask tasks id with
  | none => (none, tasks)
  | some t =>
    let t2 := applyStop t now
    (some t2, saveTask tasks t2)

/-- The successor task spawned when a recurring task is completed, with
`newId` standing for the generated `Date.now()`-random id string. -/
def successorTask (t : Task) (now : Int) (newId : String) : Task :=
  { id := newId
    description := t.description
    dueDate := calculateNextDueDate t.dueDate t.recurring t.workingDaysOnly
    dueTime := t.dueTime
    priority := t.priority
    recurring := t.recurring
    details := t.details
    isAppointment := t.isAppointment
    reminderMinutes :=
      match t.reminderMinutes with
      | some m => if m == 0 then none else some m
      | none => none
    workingDaysOnly := t.workingDaysOnly
    completed := false
    archived := false
    inProgress := false
    startedAt := none
    timeSpent := 0
    completedAt := none
    links := t.links
    createdAt := now
    updatedAt := now }

/-- POST /api/tasks/:id/complete: accrue time, mark completed and archived,
replace the task in the array, and append a successor when the task is
recurring and has a due date; the whole array is then written back. -/
def completeEndpoint (tasks : List Task) (id : String) (now : Int)
    (newId : String) : Option Task × List Task :=
  match tasks.find? (fun t => t.id == id) with
  | none => (none, tasks)
  | some t =>
    let t2 := applyComplete t now
    let updated := saveTask tasks t2
    if truthyStr t2.recurring && t2.dueDate.isSome then
      (some t2, updated ++ [successorTask t2 now newId])
    else
      (some t2, updated)

/-- POST /api/tasks/:id/restore. -/
def restoreEndpoint (tasks : List Task) (id : String) (now : Int) :
    Option Task × List Task :=
  match getTask tasks id with
  | none => (none, tasks)
  | some t =>
    let t2 := { t with archived := false, completed := false, updatedAt := now }
    (some t2, saveTask tasks t2)

/-- DELETE /api/tasks/:id. -/
def deleteEndpoint (tasks : List Task) (id : String) :
    Option Unit × List Task :=
  match getTask tasks id with
  | none => (none, tasks)
  | some _ => (some (), deleteTask tasks id)

/-- The request body of POST /api/tasks. Optional fields are `none` when the
body omits them or sends a falsy value. -/
structure TaskInput where
  id : Option String
  description : String
  dueDate : Option Date
  dueTime : Option Nat
  priority : Option String
  links : Option (List String)
  recurring : Option String
  details : Option String
  isAppointment : Bool
  reminderMinutes : Option Nat
  workingDaysOnly : Bool
deriving Repr

/-- The update branch of POST /api/tasks: spread the existing task and
overwrite only the descriptive fields and updatedAt. -/
def buildUpdatedTask (existing : Task) (inp : TaskInput) (now : Int) : Task :=
  { existing with
    description := inp.description.trim
    dueDate := inp.dueDate
    dueTime := inp.dueTime
    priority := inp.priority.getD "medium"
    recurring := inp.recurring
    details := inp.details
    links := inp.links.getD []
    isAppointment := inp.isAppointment
    reminderMinutes :=
      if inp.isAppointment then some (jsOr30 inp.reminderMinutes) else none
    workingDaysOnly :=
      if inp.recurring == some "daily" then inp.workingDaysOnly else false
    updatedAt := now }

/-- The create branches of POST /api/tasks (with a client-sent id that matches
no stored task, or with the freshly generated id). -/
def buildNewTask (tid : String) (inp : TaskInput) (now : Int) : Task :=
  { id := tid
    description := inp.description.trim
    dueDate := inp.dueDate
    dueTime := inp.dueTime
    priority := inp.priority.getD "medium"
    recurring := inp.recurring
    details := inp.details
    isAppointment := inp.isAppointment
    reminderMinutes :=
      if inp.isAppointment then some (jsOr30 inp.reminderMinutes) else none
    workingDaysOnly :=
      if inp.recurring == some "daily" then inp.workingDaysOnly else false
    completed := false
    archived := false
    inProgress := false
    startedAt := none
    timeSpent := 0
    completedAt := none
    links := inp.links.getD []
    createdAt := now
    updatedAt := now }

/-- validateTask of `src/routes/api.js`, with the platform URL parser
abstracted as the predicate `urlOk`; the handler rejects the task when this
returns false. -/
def validateTask (urlOk : String → Bool) (t : Task) : Bool :=
  !(t.description.trim == "") &&
  (t.priority == "" || t.priority == "low" || t.priority == "medium" ||
    t.priority == "high") &&
  t.links.all urlOk

/-- Rejection test for the recurring field of the request body: truthy but
neither daily nor weekly. -/
def badRecurring : Option String → Bool
  | none => false
  | some r => !(r == "") && !(r == "daily") && !(r == "weekly")

/-- POST /api/tasks: validate, then create or update. `newId` stands for the
generated `Date.now()` id string. The pair is the HTTP result (`none` is a 400
response) and the persisted store. -/
def postTasks (urlOk : String → Bool) (tasks : List Task) (inp : TaskInput)
    (now : Int) (newId : String) : Option Task × List Task :=
  if inp.description.trim == "" then (none, tasks)
  else if badRecurring inp.recurring then (none, tasks)
  else
    let task :=
      match inp.id with
      | some tid =>
        match getTask tasks tid with
        | some existing => buildUpdatedTask existing inp now
        | none => buildNewTask tid inp now
      | none => buildNewTask newId inp now
    if validateTask urlOk task then (some task, saveTask tasks task)
    else (none, tasks)

/-- Client-side streak state of `public/js/gamification.js`. Calendar days
(the `toDateString` keys) are represented by day indices. -/
structure Streak where
  currentStreak : Nat
  lastCompletedDate : Option Nat
  tasksCompletedToday : Nat
deriving DecidableEq, Repr

/-- resetStreak of `public/js/gamification.js`. -/
def resetStreak : Streak :=
  { currentStreak := 0, lastCompletedDate := none, tasksCompletedToday := 0 }

/-- recordTaskCompletion of `public/js/gamification.js`: update the streak
state for one completion event on day `today`; the Bool is the returned
"3-task minimum just reached" flag. -/
def recordTaskCompletion (s : Streak) (today : Nat) : Streak × Bool :=
  if s.lastCompletedDate = some today then
    let count := s.tasksCompletedToday + 1
    let streak := if count = 3 ∧ s.currentStreak = 0 then 1 else s.currentStreak
    ({ currentStreak := streak, lastCompletedDate := s.lastCompletedDate,
       tasksCompletedToday := count }, count == 3)
  else
    let previousDayMet := 3 ≤ s.tasksCompletedToday
    let streak :=
      if previousDayMet ∧ 0 < s.currentStreak then s.currentStreak + 1
      else if previousDayMet ∧ s.currentStreak = 0 then 1
      else 0
    ({ currentStreak := streak, lastCompletedDate := some today,
       tasksCompletedToday := 1 }, false)

/-- loadStreakData of `public/js/gamification.js`: rebuild the in-memory
streak state from the persisted record (if any) at page load on day `today`.
The JavaScript day difference `floor((today - last) / 86400000)` of two local
midnights is the difference of the day indices (0 when the stored day is in
the future, matching a negative difference never being 1). -/
def loadStreakData (stored : Option Streak) (today : Nat) : Streak :=
  match stored with
  | none => resetStreak
  | some data =>
    if data.lastCompletedDate = some today then data
    else
      match data.lastCompletedDate with
      | some last =>
        if today - last = 1 then
          { currentStreak := data.currentStreak + 1,
            lastCompletedDate := some today, tasksCompletedToday := 0 }
        else
          { currentStreak := 0, lastCompletedDate := some today,
            tasksCompletedToday := 0 }
      | none => resetStreak

/-- Iterated completion events on day `today`, starting from state `s`. -/
def completionsFrom (s : Streak) (today : Nat) : Nat → Streak
  | 0 => s
  | n + 1 => (recordTaskCompletion (completionsFrom s today n) today).1

/-- A sequence of completion events on the given days, starting from the
reset state. -/
def runCompletions (days : List Nat) : Streak :=
  days.foldl (fun s d => (recordTaskCompletion s d).1) resetStreak

/-- loadRemindedTasks of `public/js/appointmentReminder.js`: the notified set
restored from storage, discarded when the stored record is from another
calendar day. -/
def loadRemindedTasks (stored : Option (Nat × List String)) (today : Nat) :
    List String :=
  match stored with
  | none => []
  | some (date, taskIds) => if date = today then taskIds else []

/-- Local-midnight-based milliseconds of a due date with a due time given in
minutes since midnight, as produced by `new Date(dueDate + T + dueTime)`. -/
def dueMs (d : Date) (tm : Nat) : Int :=
  (toDayNumber d : Int) * 86400000 + (tm : Int) * 60000

/-- The five-minute grace period after the due time. -/
def graceMs : Int := 5 * 60000

/-- The per-task test of checkAndNotifyAppointments: the task is an
appointment with a due date and time, has not been notified, and the current
time lies in the closed window from (due − lead) to (due + grace). -/
def shouldFire (reminded : List String) (now : Int) (t : Task) : Bool :=
  t.isAppointment &&
  (match t.dueDate, t.dueTime with
   | some dd, some tm =>
     !(reminded.contains t.id) &&
     (decide (dueMs dd tm - (jsOr30 t.reminderMinutes : Int) * 60000 ≤ now) &&
      decide (now ≤ dueMs dd tm + graceMs))
   | _, _ => false)

/-- One task of the checkAndNotifyAppointments loop: on a hit, the task id is
appended to the notified set and recorded as fired. -/
def reminderStep (now : Int) (acc : List String × List String) (t : Task) :
    List String × List String :=
  if shouldFire acc.1 now t then (acc.1 ++ [t.id], acc.2 ++ [t.id]) else acc

/-- checkAndNotifyAppointments of `public/js/appointmentReminder.js`: one
check pass over the task list; returns the updated notified set and the ids
notified during this pass. -/
def checkAndNotifyAppointments (reminded : List String) (now : Int)
    (tasks : List Task) : List String × List String :=
  tasks.foldl (reminderStep now) (reminded, [])

/-- Number of times the task id fires over a sequence of check passes, the
notified set being threaded from one pass to the next. -/
def countFires (tid : String) (reminded : List String) :
    List (Int × List Task) → Nat
  | [] => 0
  | (now, ts) :: rest =>
    let out := checkAndNotifyAppointments reminded now ts
    out.2.count tid + countFires tid out.1 rest

/-- A task with every optional field empty, used to build concrete stores. -/
def baseTask : Task :=
  { id := "", description := "t", dueDate := none, dueTime := none,
    priority := "medium", recurring := none, details := none,
    isAppointment := false, reminderMinutes := none, workingDaysOnly := false,
    completed := false, archived := false, inProgress := false,
    startedAt := none, timeSpent := 0, completedAt := none, links := [],
    createdAt := 0, updatedAt := 0 }

theorem saveTask_find? (tasks : List Task) (u : Task) :
    (saveTask tasks u).find? (fun x => x.id == u.id) = some u := by
  induction tasks with
  | nil => simp [saveTask, List.find?_cons]
  | cons x xs ih =>
    unfold saveTask
    by_cases hx : x.id == u.id
    · simp [hx, List.find?_cons]
    · simp only [hx, Bool.false_eq_true, if_false]
      rw [List.find?_cons]
      simp only [hx]
      exact ih

theorem saveTask_length (tasks : List Task) (u : Task)
    (h : ∃ x ∈ tasks, x.id = u.id) :
    (saveTask tasks u).length = tasks.length := by
  induction tasks with
  | nil => simp at h
  | cons x xs ih =>
    obtain ⟨a, ha, hid⟩ := h
    unfold saveTask
    by_cases hx : x.id == u.id
    · simp [hx]
    · rcases List.mem_cons.mp ha with rfl | hmem
      · exact absurd (by simp [hid]) hx
      · simp only [hx, Bool.false_eq_true, if_false, List.length_cons]
        rw [ih ⟨a, hmem, hid⟩]

theorem applyComplete_keeps (t : Task) (now : Int) :
    (applyComplete t now).id = t.id ∧
    (applyComplete t now).dueDate = t.dueDate ∧
    (applyComplete t now).recurring = t.recurring ∧
    (applyComplete t now).workingDaysOnly = t.workingDaysOnly := by
  cases hst : t.startedAt <;> cases hip : t.inProgress <;>
    simp [applyComplete, hst, hip]

/-- A task whose timer is running, started at millisecond 0. -/
def runningTaskA : Task :=
  { baseTask with id := "a", inProgress := true, startedAt := some 0 }

/-- An idle task. -/
def idleTaskB : Task := { baseTask with id := "b" }

/-- C1: refuted on the code. The start handler clears the other running timer
only in its in-memory array and then persists the started task through
saveTask, which re-reads the store, so the auto-stop is lost: starting task b
while task a is in progress leaves the persisted store with two tasks having
inProgress true, and task a keeps inProgress true and its old startedAt. -/
theorem start_leaves_other_task_running :
    ((startEndpoint [runningTaskA, idleTaskB] "b" 1000).2.filter
        (fun t => t.inProgress)).length = 2 ∧
    (startEndpoint [runningTaskA, idleTaskB] "b" 1000).2.find?
        (fun t => t.id == "a") = some runningTaskA ∧
    runningTaskA.inProgress = true ∧ runningTaskA.startedAt = some 0 ∧
    (startEndpoint [runningTaskA, idleTaskB] "b" 1000).1.isSome = true := by
  decide

/-- C2: a stop or complete on a task that is in progress with a start
timestamp adds exactly floor((now − startedAt) / 1000) seconds, a non-negative
integer when the clock has not moved backwards since the start; a task that is
not in progress or has no start timestamp keeps its timeSpent unchanged. -/
theorem stop_complete_accrual (t : Task) (now : Int)
    (hclock : ∀ s, t.startedAt = some s → s ≤ now) :
    (∀ s, t.startedAt = some s → t.inProgress = true →
      (applyStop t now).timeSpent = t.timeSpent + elapsedSec now s ∧
      (applyComplete t now).timeSpent = t.timeSpent + elapsedSec now s ∧
      0 ≤ elapsedSec now s) ∧
    ((t.inProgress = false ∨ t.startedAt = none) →
      (applyStop t now).timeSpent = t.timeSpent ∧
      (applyComplete t now).timeSpent = t.timeSpent) := by
  constructor
  · intro s hs hip
    have hle := hclock s hs
    refine ⟨by simp [applyStop, hs, hip], by simp [applyComplete, hs, hip], ?_⟩
    exact Int.fdiv_nonneg (by omega) (by norm_num)
  · rintro (hip | hs)
    · cases hst : t.startedAt <;> simp [applyStop, applyComplete, hip, hst]
    · simp [applyStop, applyComplete, hs]

/-- A running task used to instantiate the accrual theorem. -/
def timerWitnessTask : Task :=
  { baseTask with
    id := "w"
    inProgress := true
    startedAt := some 200
    timeSpent := 7 }

theorem stop_complete_accrual_witness :
    (applyStop timerWitnessTask 1700).timeSpent = 8 ∧
    (applyComplete timerWitnessTask 1700).timeSpent = 8 := by
  have hcl : ∀ s, timerWitnessTask.startedAt = some s → s ≤ (1700 : Int) := by
    intro s hs
    have h2 : some (200 : Int) = some s := hs
    injection h2 with h3
    omega
  have h := (stop_complete_accrual timerWitnessTask 1700 hcl).1 200 rfl rfl
  refine ⟨?_, ?_⟩
  · rw [h.1]; decide
  · rw [h.2.1]; decide

/-- C8: the next-due-date computation returns an absent due date unchanged for
every recurrence value, and completing a recurring task that has no due date
appends no successor: the store keeps its length. -/
theorem no_due_date_recurrence_noop (store : List Task) (id : String)
    (now : Int) (newId : String) (t : Task)
    (hfind : store.find? (fun x => x.id == id) = some t)
    (hdue : t.dueDate = none) :
    (∀ r w, calculateNextDueDate none r w = none) ∧
    (completeEndpoint store id now newId).2.length = store.length := by
  refine ⟨fun r w => rfl, ?_⟩
  have hmem := List.mem_of_find?_eq_some hfind
  have hkeep := applyComplete_keeps t now
  have hdue2 : (applyComplete t now).dueDate = none := by
    rw [hkeep.2.1, hdue]
  simp only [completeEndpoint, hfind, hdue2, Option.isSome_none,
    Bool.and_false, Bool.false_eq_true, if_false]
  exact saveTask_length store (applyComplete t now) ⟨t, hmem, hkeep.1.symm⟩

/-- A recurring task without a due date. -/
def recurringNoDueTask : Task :=
  { baseTask with id := "c", recurring := some "daily" }

theorem no_due_date_recurrence_noop_witness :
    (completeEndpoint [recurringNoDueTask] "c" 50 "n").2.length = 1 := by
  have h := no_due_date_recurrence_noop [recurringNoDueTask] "c" 50 "n"
    recurringNoDueTask (by decide) (by decide)
  rw [h.2]
  rfl

/-- C9: when no stored task has the requested id, the start, stop, complete,
restore and delete handlers all answer with the not-found response and leave
the persisted store exactly as it was. -/
theorem not_found_unchanged (store : List Task) (id : String) (now : Int)
    (newId : String) (h : ∀ t ∈ store, ¬(t.id = id)) :
    startEndpoint store id now = (none, store) ∧
    stopEndpoint store id now = (none, store) ∧
    completeEndpoint store id now newId = (none, store) ∧
    restoreEndpoint store id now = (none, store) ∧
    deleteEndpoint store id = (none, store) := by
  have hfind : store.find? (fun t => t.id == id) = none := by
    apply List.find?_eq_none.mpr
    intro t ht
    simp [h t ht]
  have hmemfind : (stopOthers store id).find? (fun t => t.id == id) = none := by
    apply List.find?_eq_none.mpr
    intro t ht
    simp only [stopOthers, List.mem_map] at ht
    obtain ⟨a, ha, rfl⟩ := ht
    by_cases hc : (a.inProgress && !(a.id == id)) = true <;>
      simp [hc, h a ha]
  refine ⟨?_, ?_, ?_, ?_, ?_⟩
  · simp [startEndpoint, hmemfind]
  · simp [stopEndpoint, getTask, hfind]
  · simp [completeEndpoint, hfind]
  · simp [restoreEndpoint, getTask, hfind]
  · simp [deleteEndpoint, getTask, hfind]

theorem not_found_unchanged_witness :
    startEndpoint [runningTaskA] "zzz" 5 = (none, [runningTaskA]) ∧
    stopEndpoint [runningTaskA] "zzz" 5 = (none, [runningTaskA]) ∧
    completeEndpoint [runningTaskA] "zzz" 5 "n" = (none, [runningTaskA]) ∧
    restoreEndpoint [runningTaskA] "zzz" 5 = (none, [runningTaskA]) ∧
    deleteEndpoint [runningTaskA] "zzz" = (none, [runningTaskA]) :=
  not_found_unchanged [runningTaskA] "zzz" 5 "n" (by decide)

theorem daily_wdo_cases (d : Date) :
    calculateNextDueDate (some d) (some "daily") true =
      (if dayOfWeek (nextDay d) = 0 then some (nextDay (nextDay d))
       else if dayOfWeek (nextDay d) = 6 then
         some (nextDay (nextDay (nextDay d)))
       else some (nextDay d)) := by
  simp [calculateNextDueDate, truthyStr]

theorem daily_wdo_not_weekend (d : Date) (h : validDate d) (r : Date)
    (hr : calculateNextDueDate (some d) (some "daily") true = some r) :
    (dayOfWeek r ≠ 0 ∧ dayOfWeek r ≠ 6) ∧
    ((dayOfWeek (nextDay d) = 6 ∨ dayOfWeek (nextDay d) = 0) →
      dayOfWeek r = 1) := by
  have hd1 := validDate_nextDay d h
  have hd2 := validDate_nextDay _ hd1
  rw [daily_wdo_cases] at hr
  by_cases h0 : dayOfWeek (nextDay d) = 0
  · rw [if_pos h0] at hr
    injection hr with hr
    subst hr
    have e1 := dayOfWeek_nextDay (nextDay d) hd1
    rw [h0] at e1
    refine ⟨⟨?_, ?_⟩, fun _ => ?_⟩ <;> omega
  · rw [if_neg h0] at hr
    by_cases h6 : dayOfWeek (nextDay d) = 6
    · rw [if_pos h6] at hr
      injection hr with hr
      subst hr
      have e1 := dayOfWeek_nextDay (nextDay d) hd1
      have e2 := dayOfWeek_nextDay (nextDay (nextDay d)) hd2
      rw [h6] at e1
      rw [e1] at e2
      refine ⟨⟨?_, ?_⟩, fun _ => ?_⟩ <;> omega
    · rw [if_neg h6] at hr
      injection hr with hr
      subst hr
      exact ⟨⟨h0, h6⟩, fun hc => by rcases hc with hc | hc <;> omega⟩

/-- C3: with daily recurrence and the working-days flag, the computed next
due date is never a Saturday or Sunday; a next day landing on the weekend is
pushed to Monday; Friday 2025-10-24 maps to Monday 2025-10-27; and the
successor task spawned on completion of such a recurring task carries a
non-weekend due date. -/
theorem daily_working_days_skips_weekend (d : Date) (h : validDate d) :
    (∀ r, calculateNextDueDate (some d) (some "daily") true = some r →
      (dayOfWeek r ≠ 0 ∧ dayOfWeek r ≠ 6) ∧
      ((dayOfWeek (nextDay d) = 6 ∨ dayOfWeek (nextDay d) = 0) →
        dayOfWeek r = 1)) ∧
    calculateNextDueDate (some ⟨2025, 10, 24⟩) (some "daily") true =
      some ⟨2025, 10, 27⟩ ∧
    dayOfWeek ⟨2025, 10, 24⟩ = 5 ∧ dayOfWeek ⟨2025, 10, 27⟩ = 1 ∧
    (∀ t now newId, t.recurring = some "daily" → t.workingDaysOnly = true →
      t.dueDate = some d →
      ∃ r, (successorTask t now newId).dueDate = some r ∧
        dayOfWeek r ≠ 0 ∧ dayOfWeek r ≠ 6) := by
  refine ⟨fun r hr => daily_wdo_not_weekend d h r hr, by decide, by decide,
    by decide, ?_⟩
  intro t now newId hrec hwdo hdue
  have hsucc : (successorTask t now newId).dueDate =
      calculateNextDueDate (some d) (some "daily") true := by
    simp [successorTask, hdue, hrec, hwdo]
  rw [daily_wdo_cases] at hsucc
  by_cases h0 : dayOfWeek (nextDay d) = 0
  · rw [if_pos h0] at hsucc
    exact ⟨nextDay (nextDay d), hsucc,
      (daily_wdo_not_weekend d h _ (by rw [daily_wdo_cases, if_pos h0])).1⟩
  · rw [if_neg h0] at hsucc
    by_cases h6 : dayOfWeek (nextDay d) = 6
    · rw [if_pos h6] at hsucc
      exact ⟨nextDay (nextDay (nextDay d)), hsucc,
        (daily_wdo_not_weekend d h _
          (by rw [daily_wdo_cases, if_neg h0, if_pos h6])).1⟩
    · rw [if_neg h6] at hsucc
      exact ⟨nextDay d, hsucc,
        (daily_wdo_not_weekend d h _
          (by rw [daily_wdo_cases, if_neg h0, if_neg h6])).1⟩

theorem daily_working_days_skips_weekend_witness :
    validDate ⟨2025, 10, 24⟩ ∧
    calculateNextDueDate (some ⟨2025, 10, 24⟩) (some "daily") true =
      some ⟨2025, 10, 27⟩ :=
  ⟨by decide,
    (daily_working_days_skips_weekend ⟨2025, 10, 24⟩ (by decide)).2.1⟩

/-- C7: weekly recurrence maps every valid date to the date exactly seven
calendar days later (in terms of the linear day index, so month and year
boundaries are crossed correctly), for either value of the working-days
flag. -/
theorem weekly_advances_seven_days (d : Date) (h : validDate d) (w : Bool)
    (r : Date) (hr : calculateNextDueDate (some d) (some "weekly") w = some r) :
    toDayNumber r = toDayNumber d + 7 ∧ validDate r := by
  have heq : calculateNextDueDate (some d) (some "weekly") w =
      some (addDays d 7) := by
    simp [calculateNextDueDate, truthyStr]
  rw [heq] at hr
  injection hr with hr
  subst hr
  have hspec := addDays_spec d h 7
  exact ⟨hspec.2, hspec.1⟩

theorem weekly_advances_seven_days_witness :
    validDate ⟨2025, 12, 29⟩ ∧
    toDayNumber ⟨2026, 1, 5⟩ = toDayNumber ⟨2025, 12, 29⟩ + 7 ∧
    validDate (⟨2026, 1, 5⟩ : Date) :=
  ⟨by decide,
    weekly_advances_seven_days ⟨2025, 12, 29⟩ (by decide) false ⟨2026, 1, 5⟩
      (by decide)⟩

/-- C4 counterexample: three completions on day 100 (building streak 1) and
then one completion on day 102 — a full calendar day skipped — leave the
streak at 2: recordTaskCompletion extends the streak instead of resetting it
to zero as the claim requires for a skipped day. -/
theorem skipped_day_extends_streak :
    (runCompletions [100, 100, 100, 102]).currentStreak = 2 ∧
    ¬((runCompletions [100, 100, 100, 102]).currentStreak = 0) := by
  decide

/-- C4 (amended): on a completion event whose day differs from the last
recorded day, recordTaskCompletion extends the streak by one exactly when the
previous day's count reached 3 — regardless of how many days were skipped —
and otherwise resets it to 0, and starts the day counter at 1; the
reset-on-skipped-day behaviour lives only in loadStreakData, which resets the
streak to 0 at page load whenever the stored day differs from the current day
by anything other than exactly one day. -/
theorem streak_day_rollover (s : Streak) (today : Nat)
    (hnew : ¬(s.lastCompletedDate = some today)) :
    ((recordTaskCompletion s today).1.currentStreak =
      if 3 ≤ s.tasksCompletedToday then s.currentStreak + 1 else 0) ∧
    (recordTaskCompletion s today).1.tasksCompletedToday = 1 ∧
    (recordTaskCompletion s today).1.lastCompletedDate = some today ∧
    (∀ data last, data.lastCompletedDate = some last → ¬(last = today) →
      ¬(today - last = 1) →
      (loadStreakData (some data) today).currentStreak = 0) := by
  refine ⟨?_, ?_, ?_, ?_⟩
  · simp only [recordTaskCompletion, hnew, if_false]
    split_ifs <;> omega
  · simp [recordTaskCompletion, hnew]
  · simp [recordTaskCompletion, hnew]
  · intro data last hlast hne hdiff
    simp [loadStreakData, hlast, hne, hdiff]

theorem streak_day_rollover_witness :
    ¬((⟨1, some 100, 3⟩ : Streak).lastCompletedDate = some 102) ∧
    (recordTaskCompletion ⟨1, some 100, 3⟩ 102).1.currentStreak =
      (if 3 ≤ (⟨1, some 100, 3⟩ : Streak).tasksCompletedToday then 1 + 1
       else 0) :=
  ⟨by decide, (streak_day_rollover ⟨1, some 100, 3⟩ 102 (by decide)).1⟩

/-- C5: starting from the reset state, a run of n completion events on one
day leaves the day counter at n and the streak at 1 exactly when n has
reached 3: the first two completions leave the streak at 0, the third sets it
to 1, and later completions on the same day do not change it again. -/
theorem same_day_completions (today : Nat) (n : Nat) :
    (completionsFrom resetStreak today n).tasksCompletedToday = n ∧
    (completionsFrom resetStreak today n).currentStreak =
      (if 3 ≤ n then 1 else 0) ∧
    (completionsFrom resetStreak today n).lastCompletedDate =
      (if n = 0 then none else some today) := by
  induction n with
  | zero => simp [completionsFrom, resetStreak]
  | succ n ih =>
    obtain ⟨ihc, ihs, ihl⟩ := ih
    by_cases hn : n = 0
    · subst hn
      simp [completionsFrom, resetStreak, recordTaskCompletion]
    · rw [if_neg hn] at ihl
      unfold completionsFrom recordTaskCompletion
      rw [if_pos ihl]
      dsimp only
      rw [ihc, ihs, ihl]
      refine ⟨rfl, ?_, by simp [hn]⟩
      by_cases h3 : 3 ≤ n <;> simp [h3] <;> split_ifs <;> omega

/-- C10: posting an update for an existing task id never touches the timer or
lifecycle fields. When validation fails the store is unchanged; when it
succeeds, the stored task under that id is the updated task, and it keeps the
id, timeSpent, inProgress, startedAt, completed, archived, completedAt and
createdAt of the existing task — only the descriptive fields and updatedAt
were rebuilt from the request body. -/
theorem update_preserves_timer_lifecycle (urlOk : String → Bool)
    (store : List Task) (inp : TaskInput) (now : Int) (newId tid : String)
    (e : Task) (hid : inp.id = some tid)
    (hfind : getTask store tid = some e) :
    ((postTasks urlOk store inp now newId).1 = none →
      (postTasks urlOk store inp now newId).2 = store) ∧
    (∀ u, (postTasks urlOk store inp now newId).1 = some u →
      u.id = e.id ∧ u.timeSpent = e.timeSpent ∧ u.inProgress = e.inProgress ∧
      u.startedAt = e.startedAt ∧ u.completed = e.completed ∧
      u.archived = e.archived ∧ u.completedAt = e.completedAt ∧
      u.createdAt = e.createdAt ∧
      (postTasks urlOk store inp now newId).2.find? (fun x => x.id == tid) =
        some u) := by
  have hei : e.id = tid := by
    have hpred := List.find?_some hfind
    simpa using hpred
  simp only [postTasks, hid, hfind]
  split
  · simp
  · split
    · simp
    · split
      · constructor
        · intro hc
          simp at hc
        · intro u hu
          simp only [Option.some.injEq] at hu
          subst hu
          refine ⟨rfl, rfl, rfl, rfl, rfl, rfl, rfl, rfl, ?_⟩
          have hbid : (buildUpdatedTask e inp now).id = tid := hei
          rw [← hbid]
          exact saveTask_find? store (buildUpdatedTask e inp now)
      · constructor
        · intro _
          rfl
        · intro u hu
          simp at hu

/-- An existing task with non-default timer and lifecycle state. -/
def existingTaskE : Task :=
  { baseTask with
    id := "e"
    inProgress := true
    startedAt := some 11
    timeSpent := 99
    completed := true
    archived := true
    completedAt := some 12
    createdAt := 13 }

/-- A request body updating task e. -/
def updateInputE : TaskInput :=
  { id := some "e", description := "new text", dueDate := some ⟨2025, 11, 3⟩,
    dueTime := some 540, priority := some "high", links := none,
    recurring := some "daily", details := some "d", isAppointment := false,
    reminderMinutes := none, workingDaysOnly := true }

theorem update_preserves_timer_lifecycle_witness :
    updateInputE.id = some "e" ∧
    getTask [existingTaskE] "e" = some existingTaskE ∧
    (∀ u, (postTasks (fun _ => true) [existingTaskE] updateInputE 77 "n").1 =
        some u →
      u.id = existingTaskE.id ∧ u.timeSpent = existingTaskE.timeSpent ∧
      u.inProgress = existingTaskE.inProgress ∧
      u.startedAt = existingTaskE.startedAt ∧
      u.completed = existingTaskE.completed ∧
      u.archived = existingTaskE.archived ∧
      u.completedAt = existingTaskE.completedAt ∧
      u.createdAt = existingTaskE.createdAt ∧
      (postTasks (fun _ => true) [existingTaskE] updateInputE 77 "n").2.find?
        (fun x => x.id == "e") = some u) :=
  ⟨by decide, by decide,
    (update_preserves_timer_lifecycle (fun _ => true) [existingTaskE]
      updateInputE 77 "n" "e" existingTaskE (by decide) (by decide)).2⟩

theorem shouldFire_not_mem (reminded : List String) (now : Int) (t : Task)
    (h : shouldFire reminded now t = true) : ¬(t.id ∈ reminded) := by
  unfold shouldFire at h
  rw [Bool.and_eq_true] at h
  cases hd : t.dueDate <;> cases ht : t.dueTime <;> rw [hd, ht] at h <;>
    simp_all

theorem reminderStep_potential (tid : String) (now : Int)
    (acc : List String × List String) (t : Task) :
    (reminderStep now acc t).2.count tid +
      (if tid ∈ (reminderStep now acc t).1 then 0 else 1) ≤
    acc.2.count tid + (if tid ∈ acc.1 then 0 else 1) := by
  unfold reminderStep
  split
  · next hfire =>
    by_cases hidt : t.id = tid
    · subst hidt
      have hnm := shouldFire_not_mem _ _ _ hfire
      simp [List.count_append, hnm]
    · simp [List.count_append, List.count_cons, List.count_nil, hidt,
        List.mem_append, Ne.symm hidt]
  · exact le_refl _

theorem checkAndNotify_potential (tid : String) (now : Int) (ts : List Task)
    (acc : List String × List String) :
    (ts.foldl (reminderStep now) acc).2.count tid +
      (if tid ∈ (ts.foldl (reminderStep now) acc).1 then 0 else 1) ≤
    acc.2.count tid + (if tid ∈ acc.1 then 0 else 1) := by
  induction ts generalizing acc with
  | nil => exact le_refl _
  | cons t ts ih =>
    rw [List.foldl_cons]
    exact le_trans (ih (reminderStep now acc t))
      (reminderStep_potential tid now acc t)

theorem countFires_le_indicator (tid : String)
    (checks : List (Int × List Task)) :
    ∀ reminded, countFires tid reminded checks ≤
      (if tid ∈ reminded then 0 else 1) := by
  induction checks with
  | nil =>
    intro reminded
    simp [countFires]
  | cons c rest ih =>
    intro reminded
    obtain ⟨now, ts⟩ := c
    have hpot := checkAndNotify_potential tid now ts (reminded, [])
    have hrest := ih (checkAndNotifyAppointments reminded now ts).1
    simp only [countFires, checkAndNotifyAppointments, List.count_nil] at *
    split_ifs at hpot hrest ⊢ <;> omega

/-- C6: for an appointment task with a due date, a due time and a reminder
lead of m minutes, a check fires exactly when the current time lies in the
closed window from (due − m minutes) to (due + the 5-minute grace) and the id
is not yet in the notified set; a fire appends the id to the set; over any
sequence of checks threading the set, the id fires at most once; and the
persisted notified set is discarded when its stored day differs from the
current day. -/
theorem appointment_reminder_window_once (t : Task) (dd : Date) (tm : Nat)
    (m : Nat) (h1 : t.isAppointment = true) (h2 : t.dueDate = some dd)
    (h3 : t.dueTime = some tm) (h4 : t.reminderMinutes = some m)
    (h5 : ¬(m = 0)) :
    (∀ reminded now, shouldFire reminded now t = true ↔
      (dueMs dd tm - (m : Int) * 60000 ≤ now ∧ now ≤ dueMs dd tm + graceMs ∧
        ¬(t.id ∈ reminded))) ∧
    (∀ reminded now, shouldFire reminded now t = true →
      t.id ∈ (checkAndNotifyAppointments reminded now [t]).1 ∧
      (checkAndNotifyAppointments reminded now [t]).2 = [t.id]) ∧
    (∀ reminded checks, countFires t.id reminded checks ≤ 1) ∧
    (∀ storedDate ids today, ¬(storedDate = today) →
      loadRemindedTasks (some (storedDate, ids)) today = []) := by
  have hlead : jsOr30 t.reminderMinutes = m := by
    simp [h4, jsOr30, h5]
  refine ⟨?_, ?_, ?_, ?_⟩
  · intro reminded now
    unfold shouldFire
    rw [h2, h3]
    simp [h1, hlead, and_assoc]
    tauto
  · intro reminded now hfire
    simp only [checkAndNotifyAppointments, List.foldl_cons, List.foldl_nil,
      reminderStep, hfire, if_true]
    simp
  · intro reminded checks
    calc countFires t.id reminded checks ≤
        (if t.id ∈ reminded then 0 else 1) :=
          countFires_le_indicator t.id checks reminded
      _ ≤ 1 := by split_ifs <;> omega
  · intro storedDate ids today hne
    simp [loadRemindedTasks, hne]

/-- An appointment task on 2025-10-24 09:00 with a 30-minute lead. -/
def appointmentTaskR : Task :=
  { baseTask with
    id := "r"
    isAppointment := true
    dueDate := some ⟨2025, 10, 24⟩
    dueTime := some 540
    reminderMinutes := some 30 }

theorem appointment_reminder_window_once_witness :
    appointmentTaskR.isAppointment = true ∧
    (∀ reminded checks, countFires appointmentTaskR.id reminded checks ≤ 1) :=
  ⟨by decide,
    (appointment_reminder_window_once appointmentTaskR ⟨2025, 10, 24⟩ 540 30
      rfl rfl rfl rfl (by decide)).2.2.1⟩

end TaskApp
